import Mathlib

/-!
Verification of the goftpd ACL / permissions / authenticator core.

The Go sources are shallowly embedded: strings are Lean `String`
(a list of characters), byte-level indexing in the Go code is modelled
at character level (all branch decisions in the source only inspect
ASCII prefix characters, where the two coincide), and the parsing,
decision and store operations are translated function by function.
-/

namespace Goftpd

/-- Models Go `strings.ToLower` (restricted to the ASCII case folding of
`Char.toLower`; the source only ever compares case-folded tokens). -/
def strToLower (s : String) : String := ⟨s.data.map Char.toLower⟩

/-- Helper for `splitF`: accumulates the current run of non-separator
characters (reversed) and emits maximal runs, like Go `strings.FieldsFunc`. -/
def splitFAux (p : Char → Bool) : List Char → List Char → List (List Char)
  | [], acc => if acc.isEmpty then [] else [acc.reverse]
  | c :: cs, acc =>
    if p c then
      if acc.isEmpty then splitFAux p cs []
      else acc.reverse :: splitFAux p cs []
    else splitFAux p cs (c :: acc)

/-- Split a character list into the maximal runs of characters not
satisfying `p`, dropping separators; models Go `strings.FieldsFunc`. -/
def splitF (p : Char → Bool) (l : List Char) : List (List Char) :=
  splitFAux p l []

/-- Models Go `strings.Fields`: whitespace-separated fields of a string. -/
def fields (s : String) : List (List Char) :=
  splitF Char.isWhitespace s.data

/-- Path segments: the `/`-separated components of a path, empty components
dropped (so `"/"` has no segments and `"/dir/a"` has segments `dir`, `a`). -/
def segments (p : String) : List (List Char) :=
  splitF (fun c => c == '/') p.data

/-- Embeds the Go struct `collection` from `src/acl/scope.go`: one side of
an ACL, a wildcard flag plus user/group/flag predicate lists. -/
structure collection where
  all : Bool := false
  users : List String := []
  groups : List String := []
  flags : List String := []
deriving Repr, DecidableEq

/-- Embeds the Go struct `ACL` from `src/acl/scope.go`. -/
structure ACL where
  allowed : collection
  blocked : collection
deriving Repr, DecidableEq

/-- Embeds the `acl.User` interface (`Name() / Groups() / Flags()`): the
identity presented to a permission check. -/
structure User where
  name : String
  groups : List String
  flags : List String
deriving Repr, DecidableEq

/-- Embeds `(c *collection) has` from `src/acl/scope.go`: membership of the
lower-cased element in the slice. -/
def has (s : List String) (e : String) : Bool :=
  s.contains (strToLower e)

/-- Embeds `collection.hasUser`. -/
def collection.hasUser (c : collection) (u : String) : Bool := has c.users u

/-- Embeds `collection.hasGroup`. -/
def collection.hasGroup (c : collection) (g : String) : Bool := has c.groups g

/-- Embeds `collection.hasFlag`. -/
def collection.hasFlag (c : collection) (f : String) : Bool := has c.flags f

/-- Embeds `(a *ACL) Allowed` from `src/acl/scope.go`: the precedence-ordered
decision procedure, default deny. -/
def ACL.Allowed (a : ACL) (u : User) : Bool :=
  if a.blocked.hasUser u.name then false
  else if u.groups.any (fun g => a.blocked.hasGroup g) then false
  else if u.flags.any (fun f => a.blocked.hasFlag f) then false
  else if a.allowed.hasUser u.name then true
  else if u.groups.any (fun g => a.allowed.hasGroup g) then true
  else if u.flags.any (fun f => a.allowed.hasFlag f) then true
  else if a.blocked.all then false
  else if a.allowed.all then true
  else false

/-- Set the `all` flag of the selected (blocked or allowed) collection;
embeds the `c.all = true` assignments in `NewFromString`. -/
def setAll (a : ACL) (bl : Bool) : ACL :=
  if bl then { a with blocked := { a.blocked with all := true } }
  else { a with allowed := { a.allowed with all := true } }

/-- Append a user predicate to the selected collection; embeds the
`c.users = append(c.users, f)` assignment in `NewFromString`. -/
def addUserTok (a : ACL) (bl : Bool) (n : String) : ACL :=
  if bl then { a with blocked := { a.blocked with users := a.blocked.users ++ [n] } }
  else { a with allowed := { a.allowed with users := a.allowed.users ++ [n] } }

/-- Append a group predicate to the selected collection; embeds the
`c.groups = append(c.groups, f)` assignments in `NewFromString`. -/
def addGroupTok (a : ACL) (bl : Bool) (n : String) : ACL :=
  if bl then { a with blocked := { a.blocked with groups := a.blocked.groups ++ [n] } }
  else { a with allowed := { a.allowed with groups := a.allowed.groups ++ [n] } }

/-- Embeds the `switch f[0]` body of `NewFromString` (after the optional
leading `!` has been stripped; `bl` records whether it was present). -/
def applyTok (a : ACL) (bl : Bool) (f : List Char) : Except String ACL :=
  if f.head? = some '-' then
    if f.tail = [] then .error "expected string after '-'"
    else if f.tail = ['*'] then .ok (setAll a bl)
    else .ok (addUserTok a bl (String.mk f.tail))
  else if f.head? = some '=' then
    if f.tail = [] then .error "expected string after '='"
    else if f.tail = ['*'] then .ok (setAll a bl)
    else .ok (addGroupTok a bl (String.mk f.tail))
  else
    if f = ['*'] then .ok (setAll a bl)
    else .ok (addGroupTok a bl (String.mk f))

/-- Embeds one iteration of the token loop of `NewFromString`: empty tokens
are skipped, a leading `!` selects the blocked collection. -/
def parseTok (a : ACL) (f : List Char) : Except String ACL :=
  if f = [] then .ok a
  else if f.head? = some '!' then
    if f.tail = [] then .error "expected string after '!'"
    else applyTok a true f.tail
  else applyTok a false f

/-- Embeds the token loop of `NewFromString`: process the tokens in order,
returning the first parse error. -/
def parseToks (a : ACL) : List (List Char) → Except String ACL
  | [] => .ok a
  | t :: ts =>
    match parseTok a t with
    | .error e => .error e
    | .ok b => parseToks b ts

/-- Embeds `NewFromString` from `src/acl/scope.go`: reject the empty input,
lower-case, split into whitespace fields, and run the token loop. -/
def NewFromString (s : String) : Except String ACL :=
  if s.data.isEmpty then .error "no input string given"
  else parseToks ⟨{}, {}⟩ (fields (strToLower s))

/-- Embeds the Go type `PermissionScope` (a string) from `src/acl/scope.go`. -/
abbrev PermissionScope := String

/-- The closed set of scope names, from the `StringToPermissionScope` map in
`src/acl/scope.go`. -/
def scopeTable : List String :=
  ["download", "upload", "rename", "renameown", "delete", "deleteown",
   "resume", "resumeown", "makedir", "list", "hideuser", "hidegroup"]

/-- Lookup in the `StringToPermissionScope` map. -/
def stringToPermissionScope (s : String) : Option PermissionScope :=
  if scopeTable.contains s then some s else none

/-- Embeds the Go struct `Rule` (field order `path`, `scope`, `acl` as in the
literals of `src/acl/permissions_test.go`). -/
structure Rule where
  path : String
  scope : PermissionScope
  acl : ACL
deriving Repr, DecidableEq

/-- Modelled from the spec: `NewRule` is not under `src/` (only its tests
are). Per spec section 4.2: minimum three whitespace fields, the first looked
up in the closed scope table, the second taken verbatim as the path, the rest
rejoined and handed to the ACL parser with its error propagated verbatim. -/
def NewRule (line : String) : Except String Rule :=
  match fields line with
  | f0 :: f1 :: f2 :: rest =>
    match stringToPermissionScope (String.mk f0) with
    | none => .error ("unknown permission scope '" ++ String.mk f0 ++ "'")
    | some sc =>
      match NewFromString (String.intercalate " " ((f2 :: rest).map String.mk)) with
      | .error e => .error e
      | .ok a => .ok ⟨String.mk f1, sc, a⟩
  | _ => .error "rule requires minimum of 3 fields"

/-- Modelled from the spec: the `Permissions` aggregate is not under `src/`
(only its tests are). It holds the accepted rules in insertion order. -/
structure Permissions where
  rules : List Rule
deriving Repr, DecidableEq

/-- Whether two rules bind the same (scope, path) pair. -/
def sameScopePath (a b : Rule) : Bool :=
  a.scope == b.scope && a.path == b.path

/-- The duplicate (scope, path) construction error message of
`NewPermissions`, from `src/acl/permissions_test.go`. -/
def dupMsg (r : Rule) : String :=
  "path '" ++ r.path ++ "' for scope '" ++ r.scope ++ "' already exists"

/-- Modelled from the spec: the insertion loop of `NewPermissions` (not under
`src/`). Rules are inserted in order; a rule whose (scope, path) duplicates an
already-inserted rule's pair is rejected with the exact offending pair. -/
def addRules (acc : List Rule) : List Rule → Except String (List Rule)
  | [] => .ok acc
  | r :: rs =>
    if acc.any (fun r0 => sameScopePath r0 r) then .error (dupMsg r)
    else addRules (acc ++ [r]) rs

/-- Modelled from the spec: `NewPermissions` (not under `src/`, only its
tests). An empty rule sequence is valid and yields an empty aggregate. -/
def NewPermissions (rs : List Rule) : Except String Permissions :=
  (addRules [] rs).map Permissions.mk

/-- Modelled from the spec: a rule path matches a queried path when its
path segments are a prefix of the queried path's segments (ancestor-or-equal
under path-segment comparison, not substring containment). -/
def isAncestorOf (rulePath queriedPath : String) : Bool :=
  (segments rulePath).isPrefixOf (segments queriedPath)

/-- Whether a rule applies to a (scope, path) query: same scope and the
rule's path is an ancestor-or-equal of the queried path. -/
def ruleMatches (sc : PermissionScope) (path : String) (r : Rule) : Bool :=
  r.scope == sc && isAncestorOf r.path path

/-- Modelled from the spec: among the rules applying to the query, the one
with the longest (most segments) matching path. -/
def pickRule (sc : PermissionScope) (path : String) : List Rule → Option Rule
  | [] => none
  | r :: rs =>
    match pickRule sc path rs with
    | none => if ruleMatches sc path r then some r else none
    | some b =>
      if ruleMatches sc path r && (segments b.path).length < (segments r.path).length
      then some r else some b

/-- Modelled from the spec: `Permissions.Allowed` (not under `src/`, only its
tests). No applicable rule (in particular a scope with no rules) is a default
deny; otherwise the most specific matching rule's ACL decides. -/
def Permissions.Allowed (p : Permissions) (sc : PermissionScope) (path : String)
    (u : User) : Bool :=
  match pickRule sc path p.rules with
  | none => false
  | some r => r.acl.Allowed u

/-- Modelled from the spec: the persisted credential record (the Go `User`
store struct with `Name` and `Password` fields is not under `src/`). The
`password` field holds the stored hash. -/
structure UserRec where
  name : String
  password : String
deriving Repr, DecidableEq

/-- Modelled from the spec: the store key of a user record,
`"user:" + name` (the Go `User.Key()` method is not under `src/`). -/
def userKey (name : String) : String := "user:" ++ name

/-- The badger key-value store, modelled as an association list from keys to
decoded user records (serialization is abstracted away; the most recent
binding of a key wins, matching overwrite semantics). -/
abbrev DB := List (String × UserRec)

/-- Lookup of a key in the store; `none` models `badger.ErrKeyNotFound`. -/
def dbGet (db : DB) (k : String) : Option UserRec :=
  (db.find? (fun kv => kv.fst == k)).map Prod.snd

/-- Models `tx.Set` under `encodeAndUpdate`: bind the key to the record. -/
def dbSet (db : DB) (k : String) (v : UserRec) : DB := (k, v) :: db

/-- The authenticator error values of `src/acl/scope.go`; `other` carries
the message of an ad-hoc `errors.New` error. -/
inductive AuthError where
  | userExists
  | userDoesntExist
  | groupExists
  | groupDoesntExist
  | other (msg : String)
deriving Repr, DecidableEq

/-- Models the contract of the `golang.org/x/crypto/bcrypt` library used by
the authenticator: `generate` is the salted one-way hash
(`GenerateFromPassword`), `verify` the comparison (`CompareHashAndPassword`
succeeding). A hash verifies exactly against its original password and is
never equal to the plaintext. -/
structure HashScheme where
  generate : String → String
  verify : String → String → Bool
  verify_generate : ∀ p q, verify (generate p) q = true ↔ q = p
  generate_ne : ∀ p, generate p ≠ p

/-- Embeds `BadgerAuthenticator.GetUser` from `src/acl/scope.go`: fetch and
decode; a key-not-found is translated to `ErrUserDoesntExist`. -/
def GetUser (db : DB) (name : String) : Except AuthError UserRec :=
  match dbGet db (userKey name) with
  | some u => .ok u
  | none => .error .userDoesntExist

/-- Embeds `BadgerAuthenticator.AddUser` from `src/acl/scope.go`: existence
check, then hash and persist. Returns the result together with the store
after the call. -/
def AddUser (H : HashScheme) (db : DB) (name pass : String) :
    Except AuthError UserRec × DB :=
  match GetUser db name with
  | .ok _ => (.error .userExists, db)
  | .error e =>
    if e = .userDoesntExist then
      (.ok ⟨name, H.generate pass⟩, dbSet db (userKey name) ⟨name, H.generate pass⟩)
    else (.error e, db)

/-- Embeds `BadgerAuthenticator.CheckPassword` from `src/acl/scope.go`: any
fetch failure is `false`, otherwise the bcrypt comparison decides. -/
def CheckPassword (H : HashScheme) (db : DB) (name pass : String) : Bool :=
  match GetUser db name with
  | .error _ => false
  | .ok u => if H.verify u.password pass then true else false

/-- Embeds `BadgerAuthenticator.ChangePassword` from `src/acl/scope.go`: the
snapshot unconditionally returns the error `"stub"` and leaves the store
untouched. -/
def ChangePassword (db : DB) (user pass : String) :
    Except AuthError Unit × DB :=
  (.error (.other "stub"), db)

/-- A concrete hash scheme satisfying the bcrypt contract, used to
instantiate the authenticator theorems. -/
def hashModel : HashScheme where
  generate p := ⟨'$' :: p.data⟩
  verify h q := h == ⟨'$' :: q.data⟩
  verify_generate := by
    intro p q
    constructor
    · intro h
      have h2 := eq_of_beq h
      have h3 : '$' :: p.data = '$' :: q.data := congrArg String.data h2
      have h4 : p.data = q.data := by injection h3
      cases p; cases q; simp only at h4; rw [h4]
    · intro h; subst h; exact beq_self_eq_true _
  generate_ne := by
    intro p h
    have h2 : ('$' :: p.data).length = p.data.length := congrArg (fun s : String => s.data.length) h
    simp at h2

/-- Case-insensitive membership, as the spec's data model words it:
"membership tests are case-insensitive exact match". -/
def memCI (l : List String) (e : String) : Bool :=
  l.contains (strToLower e)

/-- Stated from the specification text (section 4.1): the nine-step fixed
precedence order of `ACL.Allowed`, first match wins — blocked users, blocked
groups, blocked flags (deny); allowed users, allowed groups, allowed flags
(allow); blocked all (deny); allowed all (allow); default deny. -/
def aclSpecAllowed (a : ACL) (u : User) : Bool :=
  if memCI a.blocked.users u.name then false
  else if u.groups.any (fun g => memCI a.blocked.groups g) then false
  else if u.flags.any (fun f => memCI a.blocked.flags f) then false
  else if memCI a.allowed.users u.name then true
  else if u.groups.any (fun g => memCI a.allowed.groups g) then true
  else if u.flags.any (fun f => memCI a.allowed.flags f) then true
  else if a.blocked.all then false
  else if a.allowed.all then true
  else false

/-- The identity matches some blocked user/group/flag predicate of the ACL. -/
def blockedMatch (a : ACL) (u : User) : Bool :=
  a.blocked.hasUser u.name || u.groups.any (fun g => a.blocked.hasGroup g)
    || u.flags.any (fun f => a.blocked.hasFlag f)

/-- The identity matches some allowed user/group/flag predicate of the ACL. -/
def allowedMatch (a : ACL) (u : User) : Bool :=
  a.allowed.hasUser u.name || u.groups.any (fun g => a.allowed.hasGroup g)
    || u.flags.any (fun f => a.allowed.hasFlag f)

/-- Two strings differ only in letter case. -/
def lowerEq (s t : String) : Prop := strToLower s = strToLower t

/-- Two identities differ only in the letter case of their name, groups and
flags. -/
def userCaseEq (u v : User) : Prop :=
  lowerEq u.name v.name ∧ List.Forall₂ lowerEq u.groups v.groups
    ∧ List.Forall₂ lowerEq u.flags v.flags

/-- Whether an `Except` computation succeeded. -/
def exceptOk : Except String α → Bool
  | .ok _ => true
  | .error _ => false

/-- An ACL with no predicates at all decides by the wildcard flags alone. -/
theorem allowed_trivial (al bl : Bool) (u : User) :
    ACL.Allowed ⟨⟨al, [], [], []⟩, ⟨bl, [], [], []⟩⟩ u = (!bl && al) := by
  have hu : ∀ (b : Bool) (n : String), collection.hasUser ⟨b, [], [], []⟩ n = false :=
    fun _ _ => rfl
  have hg : ∀ (b : Bool) (g : String), collection.hasGroup ⟨b, [], [], []⟩ g = false :=
    fun _ _ => rfl
  have hf : ∀ (b : Bool) (g : String), collection.hasFlag ⟨b, [], [], []⟩ g = false :=
    fun _ _ => rfl
  simp only [ACL.Allowed, hu, hg, hf]
  cases bl <;> cases al <;> simp

/-- `pickRule` finds no rule exactly when no rule applies to the query. -/
theorem pickRule_none_iff (sc path : String) (rs : List Rule) :
    pickRule sc path rs = none ↔ ∀ r ∈ rs, ruleMatches sc path r = false := by
  induction rs with
  | nil => simp [pickRule]
  | cons r rs ih =>
    cases h : pickRule sc path rs with
    | none =>
      simp only [pickRule, h, List.forall_mem_cons]
      have hall := ih.mp h
      by_cases hm : ruleMatches sc path r = true
      · simp [hm, hall]
      · simp only [Bool.not_eq_true] at hm
        simp [hm]
        exact hall
    | some b =>
      simp only [pickRule, h, List.forall_mem_cons]
      have hfalse : ¬ ∀ r' ∈ rs, ruleMatches sc path r' = false := fun hc => by
        rw [ih.mpr hc] at h
        exact Option.noConfusion h
      constructor
      · intro hnone
        split at hnone <;> exact Option.noConfusion hnone
      · rintro ⟨-, hc⟩
        exact absurd hc hfalse

/-- A rule found by `pickRule` applies to the query and has the longest
matching path among all applicable rules. -/
theorem pickRule_some (sc path : String) (rs : List Rule) (r : Rule)
    (h : pickRule sc path rs = some r) :
    r ∈ rs ∧ ruleMatches sc path r = true ∧
      ∀ r' ∈ rs, ruleMatches sc path r' = true →
        (segments r'.path).length ≤ (segments r.path).length := by
  induction rs generalizing r with
  | nil => simp [pickRule] at h
  | cons r0 rs ih =>
    simp only [pickRule] at h
    cases hrec : pickRule sc path rs with
    | none =>
      simp only [hrec] at h
      by_cases hm : ruleMatches sc path r0 = true
      · rw [if_pos hm] at h
        have hr : r0 = r := by injection h
        subst hr
        refine ⟨List.mem_cons_self _ _, hm, ?_⟩
        intro r' hr' hm'
        rcases List.mem_cons.mp hr' with h1 | h1
        · subst h1; exact Nat.le_refl _
        · have := (pickRule_none_iff sc path rs).mp hrec r' h1
          rw [this] at hm'
          exact Bool.noConfusion hm'
      · rw [if_neg hm] at h
        exact Option.noConfusion h
    | some b =>
      simp only [hrec] at h
      obtain ⟨hbmem, hbmatch, hbmax⟩ := ih b hrec
      by_cases hc : (ruleMatches sc path r0
          && decide ((segments b.path).length < (segments r0.path).length)) = true
      · rw [if_pos hc] at h
        have hr : r0 = r := by injection h
        subst hr
        rw [Bool.and_eq_true, decide_eq_true_eq] at hc
        obtain ⟨hm, hlt⟩ := hc
        refine ⟨List.mem_cons_self _ _, hm, ?_⟩
        intro r' hr' hm'
        rcases List.mem_cons.mp hr' with h1 | h1
        · subst h1; exact Nat.le_refl _
        · exact Nat.le_of_lt (Nat.lt_of_le_of_lt (hbmax r' h1 hm') hlt)
      · rw [if_neg hc] at h
        have hr : b = r := by injection h
        subst hr
        refine ⟨List.mem_cons_of_mem _ hbmem, hbmatch, ?_⟩
        intro r' hr' hm'
        rcases List.mem_cons.mp hr' with h1 | h1
        · subst h1
          simp only [Bool.and_eq_true, decide_eq_true_eq, not_and, hm',
            true_implies] at hc
          exact Nat.le_of_not_lt hc
        · exact hbmax r' h1 hm'

/-- Claim C1: `ACL.Allowed` is decided by the fixed precedence order of the
spec (blocked users, groups, flags deny; allowed users, groups, flags allow;
blocked all deny; allowed all allow; default deny). In particular a blocked
predicate match denies even when `allowed.all` is set, an allowed predicate
match (with no blocked match) allows even when `blocked.all` is set, and an
identity matching no predicate with neither `all` flag set is denied. -/
theorem acl_allowed_precedence (a : ACL) (u : User) :
    a.Allowed u = aclSpecAllowed a u
    ∧ (blockedMatch a u = true → a.Allowed u = false)
    ∧ (blockedMatch a u = false → allowedMatch a u = true → a.Allowed u = true)
    ∧ (blockedMatch a u = false → allowedMatch a u = false →
        a.blocked.all = false → a.allowed.all = false → a.Allowed u = false) := by
  refine ⟨rfl, ?_, ?_, ?_⟩
  · intro h
    simp only [blockedMatch, Bool.or_eq_true] at h
    simp only [ACL.Allowed]
    rcases h with (h | h) | h <;> simp [h]
  · intro hb ha
    simp only [blockedMatch, Bool.or_eq_false_iff] at hb
    obtain ⟨⟨hb1, hb2⟩, hb3⟩ := hb
    simp only [allowedMatch, Bool.or_eq_true] at ha
    simp only [ACL.Allowed, hb1, hb2, hb3]
    rcases ha with (h | h) | h <;> simp [h]
  · intro hb ha h1 h2
    simp only [blockedMatch, Bool.or_eq_false_iff] at hb
    simp only [allowedMatch, Bool.or_eq_false_iff] at ha
    obtain ⟨⟨hb1, hb2⟩, hb3⟩ := hb
    obtain ⟨⟨ha1, ha2⟩, ha3⟩ := ha
    simp [ACL.Allowed, hb1, hb2, hb3, ha1, ha2, ha3, h1, h2]

/-- Witness for claim C1: a blocked user predicate denies although
`allowed.all` is set, and an allowed user predicate allows although
`blocked.all` is set. -/
theorem acl_allowed_precedence_witness :
    ACL.Allowed ⟨⟨true, [], [], []⟩, ⟨false, ["user"], [], []⟩⟩ ⟨"user", [], []⟩ = false
    ∧ ACL.Allowed ⟨⟨false, ["user"], [], []⟩, ⟨true, [], [], []⟩⟩ ⟨"user", [], []⟩ = true :=
  ⟨(acl_allowed_precedence _ _).2.1 (by decide),
   (acl_allowed_precedence _ _).2.2.1 (by decide) (by decide)⟩

/-- Claim C2: `Permissions.Allowed` returns false when the scope has no
rules; otherwise it selects among the scope's rules the one whose path is an
ancestor-or-equal of the queried path (path-segment comparison) with the
longest such path, returns false when no rule's path is such an ancestor, and
otherwise returns that rule's `ACL.Allowed`. A rule at `/` matches `/dir/a`,
a rule at `/dir` is preferred over one at `/` for query `/dir/a`, and a rule
at `/some/path` does not match `/dir/a`. -/
theorem permissions_allowed_resolution (p : Permissions) (sc path : String)
    (u : User) :
    ((∀ r ∈ p.rules, r.scope ≠ sc) → p.Allowed sc path u = false)
    ∧ ((∀ r ∈ p.rules, ruleMatches sc path r = false) → p.Allowed sc path u = false)
    ∧ (∀ r, pickRule sc path p.rules = some r →
        r ∈ p.rules ∧ ruleMatches sc path r = true
        ∧ (∀ r' ∈ p.rules, ruleMatches sc path r' = true →
            (segments r'.path).length ≤ (segments r.path).length)
        ∧ p.Allowed sc path u = r.acl.Allowed u)
    ∧ isAncestorOf "/" "/dir/a" = true
    ∧ isAncestorOf "/dir" "/dir/a" = true
    ∧ isAncestorOf "/some/path" "/dir/a" = false
    ∧ Permissions.Allowed
        ⟨[⟨"/", "download", ⟨⟨true, [], [], []⟩, ⟨false, [], [], []⟩⟩⟩,
          ⟨"/dir", "download", ⟨⟨false, [], [], []⟩, ⟨true, [], [], []⟩⟩⟩]⟩
        "download" "/dir/a" u = false
    ∧ Permissions.Allowed
        ⟨[⟨"/", "download", ⟨⟨true, [], [], []⟩, ⟨false, [], [], []⟩⟩⟩]⟩
        "download" "/dir/a" u = true := by
  have hnone : (∀ r ∈ p.rules, ruleMatches sc path r = false) →
      p.Allowed sc path u = false := by
    intro h
    have h2 := (pickRule_none_iff sc path p.rules).mpr h
    simp [Permissions.Allowed, h2]
  refine ⟨?_, hnone, ?_, rfl, rfl, rfl, ?_, ?_⟩
  · intro h
    apply hnone
    intro r hr
    have h2 : (r.scope == sc) = false := beq_eq_false_iff_ne.mpr (h r hr)
    simp [ruleMatches, h2]
  · intro r hr
    obtain ⟨h1, h2, h3⟩ := pickRule_some sc path p.rules r hr
    refine ⟨h1, h2, h3, ?_⟩
    simp [Permissions.Allowed, hr]
  · show ACL.Allowed ⟨⟨false, [], [], []⟩, ⟨true, [], [], []⟩⟩ u = false
    simpa using allowed_trivial false true u
  · show ACL.Allowed ⟨⟨true, [], [], []⟩, ⟨false, [], [], []⟩⟩ u = true
    simpa using allowed_trivial true false u

/-- Witness for claim C2: a rule at `/some/path` is no ancestor of `/dir/a`,
so the check defaults to deny there. -/
theorem permissions_allowed_resolution_witness :
    Permissions.Allowed
      ⟨[⟨"/some/path", "download", ⟨⟨true, [], [], []⟩, ⟨false, [], [], []⟩⟩⟩]⟩
      "download" "/dir/a" ⟨"user", ["group"], []⟩ = false :=
  (permissions_allowed_resolution _ "download" "/dir/a" _).2.1 (by decide)

/-- Claim C3 (code-bug evidence): contrary to the claim and to the repo's own
test `TestNewRule`, the parser of `src/acl/scope.go` accepts the `-*`, `!-*`
and `=*` tokens, setting the corresponding collection's `all` flag instead of
failing with `"bad user '*'"` / `"bad group '*'"`; consequently rule
construction on the test input `"download /path/test !-*"` succeeds. -/
theorem wildcard_user_token_accepted :
    NewFromString "!-*" = .ok ⟨⟨false, [], [], []⟩, ⟨true, [], [], []⟩⟩
    ∧ NewFromString "-*" = .ok ⟨⟨true, [], [], []⟩, ⟨false, [], [], []⟩⟩
    ∧ NewFromString "=*" = .ok ⟨⟨true, [], [], []⟩, ⟨false, [], [], []⟩⟩
    ∧ NewRule "download /path/test !-*" =
        .ok ⟨"/path/test", "download", ⟨⟨false, [], [], []⟩, ⟨true, [], [], []⟩⟩⟩ :=
  ⟨rfl, rfl, rfl, rfl⟩

/-- `setAll` never touches the flag predicate lists. -/
theorem setAll_flags (a : ACL) (bl : Bool) :
    (setAll a bl).allowed.flags = a.allowed.flags
    ∧ (setAll a bl).blocked.flags = a.blocked.flags := by
  cases bl <;> simp [setAll]

/-- `addUserTok` never touches the flag predicate lists. -/
theorem addUserTok_flags (a : ACL) (bl : Bool) (n : String) :
    (addUserTok a bl n).allowed.flags = a.allowed.flags
    ∧ (addUserTok a bl n).blocked.flags = a.blocked.flags := by
  cases bl <;> simp [addUserTok]

/-- `addGroupTok` never touches the flag predicate lists. -/
theorem addGroupTok_flags (a : ACL) (bl : Bool) (n : String) :
    (addGroupTok a bl n).allowed.flags = a.allowed.flags
    ∧ (addGroupTok a bl n).blocked.flags = a.blocked.flags := by
  cases bl <;> simp [addGroupTok]

/-- `applyTok` never touches the flag predicate lists. -/
theorem applyTok_flags (a : ACL) (bl : Bool) (f : List Char) (a' : ACL)
    (h : applyTok a bl f = .ok a') :
    a'.allowed.flags = a.allowed.flags ∧ a'.blocked.flags = a.blocked.flags := by
  unfold applyTok at h
  split at h
  · split at h
    · exact Except.noConfusion h
    · split at h
      · injection h with h2; subst h2; exact setAll_flags a bl
      · injection h with h2; subst h2; exact addUserTok_flags a bl _
  · split at h
    · split at h
      · exact Except.noConfusion h
      · split at h
        · injection h with h2; subst h2; exact setAll_flags a bl
        · injection h with h2; subst h2; exact addGroupTok_flags a bl _
    · split at h
      · injection h with h2; subst h2; exact setAll_flags a bl
      · injection h with h2; subst h2; exact addGroupTok_flags a bl _

/-- `parseTok` never touches the flag predicate lists. -/
theorem parseTok_flags (a : ACL) (f : List Char) (a' : ACL)
    (h : parseTok a f = .ok a') :
    a'.allowed.flags = a.allowed.flags ∧ a'.blocked.flags = a.blocked.flags := by
  unfold parseTok at h
  split at h
  · injection h with h2; subst h2; exact ⟨rfl, rfl⟩
  · split at h
    · split at h
      · exact Except.noConfusion h
      · exact applyTok_flags a true _ a' h
    · exact applyTok_flags a false _ a' h

/-- The token loop never touches the flag predicate lists. -/
theorem parseToks_flags (ts : List (List Char)) : ∀ (a a' : ACL),
    parseToks a ts = .ok a' →
    a'.allowed.flags = a.allowed.flags ∧ a'.blocked.flags = a.blocked.flags := by
  induction ts with
  | nil =>
    intro a a' h
    injection h with h2
    subst h2
    exact ⟨rfl, rfl⟩
  | cons t ts ih =>
    intro a a' h
    unfold parseToks at h
    cases hp : parseTok a t with
    | error e =>
      simp only [hp] at h
      exact Except.noConfusion h
    | ok b =>
      simp only [hp] at h
      obtain ⟨h1, h2⟩ := ih b a' h
      obtain ⟨h3, h4⟩ := parseTok_flags a t b hp
      exact ⟨h1.trans h3, h2.trans h4⟩

/-- A flag-free ACL decides identically with the identity's flags removed. -/
theorem allowed_flags_nil (a : ACL) (h1 : a.allowed.flags = [])
    (h2 : a.blocked.flags = []) (u : User) :
    a.Allowed u = a.Allowed ⟨u.name, u.groups, []⟩ := by
  have hf1 : ∀ f, a.blocked.hasFlag f = false := by
    intro f; simp [collection.hasFlag, h2, has]
  have hf2 : ∀ f, a.allowed.hasFlag f = false := by
    intro f; simp [collection.hasFlag, h1, has]
  simp only [ACL.Allowed, hf1, hf2]
  simp

/-- Claim C6: every parsed bare token lands in the group predicate set, never
the flag set; consequently an ACL from `NewFromString` has empty flag sets
and the identity's flags cannot influence its decision. -/
theorem parsed_acl_flags_empty (s : String) (a : ACL)
    (h : NewFromString s = .ok a) :
    a.allowed.flags = [] ∧ a.blocked.flags = []
    ∧ (∀ u : User, a.Allowed u = a.Allowed ⟨u.name, u.groups, []⟩)
    ∧ (∀ (a0 : ACL) (bl : Bool) (f : List Char), f.head? ≠ some '-' →
        f.head? ≠ some '=' → f ≠ ['*'] →
        applyTok a0 bl f = .ok (addGroupTok a0 bl (String.mk f))) := by
  have hflags : a.allowed.flags = [] ∧ a.blocked.flags = [] := by
    unfold NewFromString at h
    split at h
    · exact Except.noConfusion h
    · exact parseToks_flags _ _ a h
  refine ⟨hflags.1, hflags.2, allowed_flags_nil a hflags.1 hflags.2, ?_⟩
  intro a0 bl f h1 h2 h3
  unfold applyTok
  rw [if_neg h1, if_neg h2, if_neg h3]

/-- Witness for claim C6: the bare tokens of `"flag1 !flag2"` populate the
group sets, and the parsed ACL carries empty flag sets. -/
theorem parsed_acl_flags_empty_witness :
    (⟨⟨false, [], ["flag1"], []⟩, ⟨false, [], ["flag2"], []⟩⟩ : ACL).allowed.flags = []
    ∧ (⟨⟨false, [], ["flag1"], []⟩, ⟨false, [], ["flag2"], []⟩⟩ : ACL).blocked.flags = [] :=
  ⟨(parsed_acl_flags_empty "flag1 !flag2" _ rfl).1,
   (parsed_acl_flags_empty "flag1 !flag2" _ rfl).2.1⟩

/-- Every rule shares its own (scope, path) pair. -/
theorem sameScopePath_self (r : Rule) : sameScopePath r r = true := by
  simp [sameScopePath]

/-- Mapping a function over an `Except` preserves success. -/
theorem exceptOk_map (x : Except String α) (f : α → β) :
    exceptOk (x.map f) = exceptOk x := by
  cases x <;> rfl

/-- The insertion loop succeeds exactly when the remaining rules are pairwise
distinct on (scope, path) and none collides with an already-inserted rule. -/
theorem addRules_ok_iff (rs : List Rule) : ∀ acc,
    exceptOk (addRules acc rs) = true ↔
      (List.Pairwise (fun a b => sameScopePath a b = false) rs
        ∧ ∀ r ∈ rs, ∀ r0 ∈ acc, sameScopePath r0 r = false) := by
  induction rs with
  | nil =>
    intro acc
    simp [addRules, exceptOk]
  | cons r rs ih =>
    intro acc
    simp only [addRules]
    by_cases hdup : acc.any (fun r0 => sameScopePath r0 r) = true
    · rw [if_pos hdup]
      simp only [exceptOk]
      constructor
      · intro h; exact Bool.noConfusion h
      · rintro ⟨hp, hall⟩
        obtain ⟨r0, hr0, hr0s⟩ := List.any_eq_true.mp hdup
        have hx := hall r (List.mem_cons_self _ _) r0 hr0
        rw [hx] at hr0s
        exact Bool.noConfusion hr0s
    · rw [if_neg hdup]
      rw [ih (acc ++ [r])]
      have hnd : ∀ r0 ∈ acc, sameScopePath r0 r = false := by
        intro r0 hr0
        by_cases hx : sameScopePath r0 r = true
        · exact absurd (List.any_eq_true.mpr ⟨r0, hr0, hx⟩) hdup
        · simpa using hx
      constructor
      · rintro ⟨hp, hall⟩
        refine ⟨List.pairwise_cons.mpr ⟨?_, hp⟩, ?_⟩
        · intro b hb
          exact hall b hb r (List.mem_append.mpr (Or.inr (List.mem_singleton.mpr rfl)))
        · intro x hx r0 hr0
          rcases List.mem_cons.mp hx with h1 | h1
          · subst h1; exact hnd r0 hr0
          · exact hall x h1 r0 (List.mem_append.mpr (Or.inl hr0))
      · rintro ⟨hp, hall⟩
        obtain ⟨hhead, hp2⟩ := List.pairwise_cons.mp hp
        refine ⟨hp2, ?_⟩
        intro x hx r0 hr0
        rcases List.mem_append.mp hr0 with h1 | h1
        · exact hall x (List.mem_cons_of_mem _ hx) r0 h1
        · have h2 : r0 = r := List.mem_singleton.mp h1
          subst h2
          exact hhead x hx

/-- When the insertion loop fails, the message names a rule of the input
whose (scope, path) pair occurs at least twice among the already-inserted
and remaining rules together. -/
theorem addRules_error (rs : List Rule) : ∀ acc e, addRules acc rs = .error e →
    ∃ r ∈ rs, e = dupMsg r
      ∧ 2 ≤ (acc ++ rs).countP (fun x => sameScopePath x r) := by
  induction rs with
  | nil =>
    intro acc e h
    simp [addRules] at h
  | cons r rs ih =>
    intro acc e h
    simp only [addRules] at h
    by_cases hdup : acc.any (fun r0 => sameScopePath r0 r) = true
    · rw [if_pos hdup] at h
      injection h with he
      refine ⟨r, List.mem_cons_self _ _, he.symm, ?_⟩
      obtain ⟨r0, hr0, hr0s⟩ := List.any_eq_true.mp hdup
      have h1 : 0 < acc.countP (fun x => sameScopePath x r) :=
        List.countP_pos_iff.mpr ⟨r0, hr0, hr0s⟩
      rw [List.countP_append, List.countP_cons, sameScopePath_self]
      simp only [eq_self_iff_true, if_true]
      omega
    · rw [if_neg hdup] at h
      obtain ⟨r2, hr2, he, hcount⟩ := ih (acc ++ [r]) e h
      refine ⟨r2, List.mem_cons_of_mem _ hr2, he, ?_⟩
      rw [List.countP_append, List.countP_append, List.countP_cons,
        List.countP_nil] at hcount
      rw [List.countP_append, List.countP_cons]
      omega

/-- Claim C7: `NewPermissions` fails exactly when two rules share the same
(scope, path) pair, with an error naming the offending scope and path; an
empty rule sequence succeeds and yields a `Permissions` for which every
check returns false. -/
theorem new_permissions_duplicates (rs : List Rule) :
    (exceptOk (NewPermissions rs) = true ↔
      List.Pairwise (fun a b => sameScopePath a b = false) rs)
    ∧ (∀ e, NewPermissions rs = .error e →
        ∃ r ∈ rs, e = dupMsg r ∧ 2 ≤ rs.countP (fun x => sameScopePath x r))
    ∧ NewPermissions [] = .ok ⟨[]⟩
    ∧ (∀ (sc path : String) (u : User), Permissions.Allowed ⟨[]⟩ sc path u = false)
    ∧ NewPermissions
        [⟨"/dir/a", "download", ⟨⟨true, [], [], []⟩, ⟨false, [], [], []⟩⟩⟩,
         ⟨"/dir/a", "download", ⟨⟨false, [], [], []⟩, ⟨true, [], [], []⟩⟩⟩]
      = .error "path '/dir/a' for scope 'download' already exists" := by
  refine ⟨?_, ?_, rfl, ?_, rfl⟩
  · rw [show NewPermissions rs = (addRules [] rs).map Permissions.mk from rfl,
      exceptOk_map, addRules_ok_iff rs []]
    simp
  · intro e he
    have h2 : addRules [] rs = .error e := by
      simp only [NewPermissions] at he
      cases h : addRules [] rs with
      | ok out =>
        rw [h] at he
        exact Except.noConfusion he
      | error e2 =>
        rw [h] at he
        injection he with he2
        rw [he2]
    obtain ⟨r, hr, he2, hc⟩ := addRules_error rs [] e h2
    rw [List.nil_append] at hc
    exact ⟨r, hr, he2, hc⟩
  · intro sc path u
    rfl

/-- Witness for claim C7: the duplicate error message of the concrete
duplicate pair names its scope and path. -/
theorem new_permissions_duplicates_witness :
    ∃ r ∈ [(⟨"/dir/a", "download", ⟨⟨true, [], [], []⟩, ⟨false, [], [], []⟩⟩⟩ : Rule),
           ⟨"/dir/a", "download", ⟨⟨false, [], [], []⟩, ⟨true, [], [], []⟩⟩⟩],
      "path '/dir/a' for scope 'download' already exists" = dupMsg r
      ∧ 2 ≤ [(⟨"/dir/a", "download", ⟨⟨true, [], [], []⟩, ⟨false, [], [], []⟩⟩⟩ : Rule),
             ⟨"/dir/a", "download", ⟨⟨false, [], [], []⟩, ⟨true, [], [], []⟩⟩⟩].countP
          (fun x => sameScopePath x r) :=
  (new_permissions_duplicates _).2.1 _ rfl

/-- Membership via `has` only depends on the element's case-folded form. -/
theorem has_lowerEq (lst : List String) (e e2 : String) (h : lowerEq e e2) :
    has lst e = has lst e2 := by
  unfold lowerEq at h
  simp [has, h]

/-- `List.any` of a case-insensitive test agrees on pointwise case-equal
lists. -/
theorem any_lowerEq (q : String → Bool) (hq : ∀ x y, lowerEq x y → q x = q y)
    {gs gs2 : List String} (h : List.Forall₂ lowerEq gs gs2) :
    gs.any q = gs2.any q := by
  induction h with
  | nil => rfl
  | cons h1 _ ih => simp [List.any_cons, hq _ _ h1, ih]

/-- Claim C8: parsing is invariant under letter-case changes of the source
string, and `ACL.Allowed` is invariant under letter-case changes of the
identity's name, groups and flags: membership tests are case-insensitive
exact matches. -/
theorem acl_case_insensitive (s s2 : String) (a : ACL) (u u2 : User)
    (hs : lowerEq s s2) (hu : userCaseEq u u2) :
    NewFromString s = NewFromString s2 ∧ a.Allowed u = a.Allowed u2 := by
  constructor
  · have hs2 : strToLower s = strToLower s2 := hs
    have hlen : s.data.length = s2.data.length := by
      have h3 := congrArg (fun t : String => t.data.length) hs2
      simpa [strToLower] using h3
    have hdata : s.data.isEmpty = s2.data.isEmpty := by
      cases h4 : s.data <;> cases h5 : s2.data <;> simp_all
    unfold NewFromString
    rw [hdata, hs2]
  · obtain ⟨hn, hg, hf⟩ := hu
    have hbu : a.blocked.hasUser u.name = a.blocked.hasUser u2.name :=
      has_lowerEq a.blocked.users _ _ hn
    have hau : a.allowed.hasUser u.name = a.allowed.hasUser u2.name :=
      has_lowerEq a.allowed.users _ _ hn
    have hbg : u.groups.any (fun g => a.blocked.hasGroup g)
        = u2.groups.any (fun g => a.blocked.hasGroup g) :=
      any_lowerEq _ (fun x y hxy => has_lowerEq a.blocked.groups x y hxy) hg
    have hag : u.groups.any (fun g => a.allowed.hasGroup g)
        = u2.groups.any (fun g => a.allowed.hasGroup g) :=
      any_lowerEq _ (fun x y hxy => has_lowerEq a.allowed.groups x y hxy) hg
    have hbf : u.flags.any (fun f => a.blocked.hasFlag f)
        = u2.flags.any (fun f => a.blocked.hasFlag f) :=
      any_lowerEq _ (fun x y hxy => has_lowerEq a.blocked.flags x y hxy) hf
    have haf : u.flags.any (fun f => a.allowed.hasFlag f)
        = u2.flags.any (fun f => a.allowed.hasFlag f) :=
      any_lowerEq _ (fun x y hxy => has_lowerEq a.allowed.flags x y hxy) hf
    simp only [ACL.Allowed, hbu, hau, hbg, hag, hbf, haf]

/-- Witness for claim C8 at a concrete source string and identity pair
differing only in case. -/
theorem acl_case_insensitive_witness :
    NewFromString "=Group !*" = NewFromString "=gROUP !*"
    ∧ ACL.Allowed ⟨⟨false, [], ["group"], []⟩, ⟨true, [], [], []⟩⟩ ⟨"User", ["GROUP"], []⟩
      = ACL.Allowed ⟨⟨false, [], ["group"], []⟩, ⟨true, [], [], []⟩⟩ ⟨"user", ["group"], []⟩ :=
  acl_case_insensitive "=Group !*" "=gROUP !*"
    ⟨⟨false, [], ["group"], []⟩, ⟨true, [], [], []⟩⟩
    ⟨"User", ["GROUP"], []⟩ ⟨"user", ["group"], []⟩ rfl
    ⟨rfl, List.Forall₂.cons rfl List.Forall₂.nil, List.Forall₂.nil⟩

/-- An all-separator character list splits into no runs. -/
theorem splitFAux_all_sep (p : Char → Bool) (l : List Char)
    (h : ∀ c ∈ l, p c = true) :
    ∀ acc, splitFAux p l acc = if acc.isEmpty then [] else [acc.reverse] := by
  induction l with
  | nil => intro acc; rfl
  | cons c cs ih =>
    intro acc
    have hc : p c = true := h c (List.mem_cons_self _ _)
    have hcs : ∀ x ∈ cs, p x = true := fun x hx => h x (List.mem_cons_of_mem _ hx)
    simp only [splitFAux, hc, if_true]
    rw [ih hcs []]
    by_cases hacc : acc.isEmpty = true
    · simp [hacc]
    · simp [hacc]

/-- Case folding fixes whitespace characters. -/
theorem toLower_whitespace (c : Char) (h : c.isWhitespace = true) :
    Char.toLower c = c := by
  simp only [Char.isWhitespace, Bool.or_eq_true, decide_eq_true_eq] at h
  rcases h with ((h | h) | h) | h <;> rw [h] <;> decide

/-- Claim C10: a non-empty input consisting only of whitespace parses
successfully (unlike the empty string) to an ACL with no predicates and
neither wildcard flag, which denies every identity. -/
theorem whitespace_input_empty_acl (s : String) (hne : s.data ≠ [])
    (hws : ∀ c ∈ s.data, c.isWhitespace = true) :
    NewFromString s = .ok ⟨{}, {}⟩
    ∧ NewFromString "" = .error "no input string given"
    ∧ (∀ u : User, ACL.Allowed ⟨{}, {}⟩ u = false) := by
  refine ⟨?_, rfl, ?_⟩
  · unfold NewFromString
    rw [if_neg (by simpa using hne)]
    have hlow : ∀ c ∈ (strToLower s).data, Char.isWhitespace c = true := by
      intro c hc
      simp only [strToLower, List.mem_map] at hc
      obtain ⟨c0, hc0, hc1⟩ := hc
      rw [← hc1, toLower_whitespace c0 (hws c0 hc0)]
      exact hws c0 hc0
    have hfields : fields (strToLower s) = [] := by
      unfold fields splitF
      rw [splitFAux_all_sep Char.isWhitespace _ hlow []]
      rfl
    rw [hfields]
    rfl
  · intro u
    simpa using allowed_trivial false false u

/-- Witness for claim C10 at the one-space input. -/
theorem whitespace_input_empty_acl_witness :
    NewFromString " " = .ok ⟨{}, {}⟩ :=
  (whitespace_input_empty_acl " " (by decide) (by decide)).1

/-- A record just stored under a user's key is fetched back unchanged. -/
theorem getUser_dbSet (db : DB) (name : String) (v : UserRec) :
    GetUser (dbSet db (userKey name) v) name = .ok v := by
  simp [GetUser, dbGet, dbSet, List.find?]

/-- Claim C4: `CheckPassword` returns false whenever fetching the user
fails, otherwise returns exactly the result of verifying the password
against the stored hash, and after a successful `AddUser(name, pass)` the
pair checks while any other password is rejected. -/
theorem check_password_spec (H : HashScheme) (db : DB) (name pass : String) :
    (∀ e, GetUser db name = .error e → CheckPassword H db name pass = false)
    ∧ (∀ u, GetUser db name = .ok u →
        CheckPassword H db name pass = H.verify u.password pass)
    ∧ (∀ u db2, AddUser H db name pass = (.ok u, db2) →
        CheckPassword H db2 name pass = true
        ∧ ∀ wrong, wrong ≠ pass → CheckPassword H db2 name wrong = false) := by
  refine ⟨?_, ?_, ?_⟩
  · intro e he
    simp [CheckPassword, he]
  · intro u hu
    simp only [CheckPassword, hu]
    cases hv : H.verify u.password pass <;> simp [hv]
  · intro u db2 hadd
    unfold AddUser at hadd
    cases hg : GetUser db name with
    | ok u0 =>
      rw [hg] at hadd
      simp at hadd
    | error e =>
      simp only [hg] at hadd
      by_cases he : e = AuthError.userDoesntExist
      · rw [if_pos he] at hadd
        injection hadd with h1 h2
        injection h1 with h1
        subst h1
        subst h2
        constructor
        · simp only [CheckPassword, getUser_dbSet]
          have hv := (H.verify_generate pass pass).mpr rfl
          simp [hv]
        · intro wrong hw
          simp only [CheckPassword, getUser_dbSet]
          cases hv : H.verify (H.generate pass) wrong with
          | false => simp
          | true => exact absurd ((H.verify_generate pass wrong).mp hv) hw
      · rw [if_neg he] at hadd
        simp at hadd

/-- Witness for claim C4: on the concrete hash model, after adding `alice`
with password `pw`, the right password checks, a wrong one does not, and an
unknown user never checks. -/
theorem check_password_spec_witness :
    CheckPassword hashModel (AddUser hashModel [] "alice" "pw").2 "alice" "pw" = true
    ∧ CheckPassword hashModel (AddUser hashModel [] "alice" "pw").2 "alice" "wrong" = false
    ∧ CheckPassword hashModel [] "nobody" "x" = false :=
  ⟨((check_password_spec hashModel [] "alice" "pw").2.2 _ _ rfl).1,
   ((check_password_spec hashModel [] "alice" "pw").2.2 _ _ rfl).2 "wrong" (by decide),
   (check_password_spec hashModel [] "nobody" "x").1 .userDoesntExist rfl⟩

/-- Claim C5: `AddUser` fails with `ErrUserExists` when the user already
exists, leaving the store (hence the existing record and its original hash)
unchanged; otherwise it persists a record whose password field is the salted
one-way hash of the password — never the plaintext — and returns that
created record. -/
theorem add_user_spec (H : HashScheme) (db : DB) (name pass : String) :
    (∀ u0, GetUser db name = .ok u0 →
      AddUser H db name pass = (.error .userExists, db))
    ∧ (GetUser db name = .error .userDoesntExist →
        AddUser H db name pass
          = (.ok ⟨name, H.generate pass⟩,
             dbSet db (userKey name) ⟨name, H.generate pass⟩)
        ∧ H.generate pass ≠ pass
        ∧ GetUser (dbSet db (userKey name) ⟨name, H.generate pass⟩) name
            = .ok ⟨name, H.generate pass⟩) := by
  constructor
  · intro u0 h
    simp [AddUser, h]
  · intro h
    exact ⟨by simp [AddUser, h], H.generate_ne pass, getUser_dbSet db name _⟩

/-- Witness for claim C5: on the concrete hash model, adding `alice` twice
fails the second time with `ErrUserExists` and returns the store unchanged,
and the first insertion stored the hash of `pw`, not `pw` itself. -/
theorem add_user_spec_witness :
    AddUser hashModel (dbSet [] (userKey "alice") ⟨"alice", hashModel.generate "pw"⟩)
      "alice" "pw"
      = (.error .userExists,
         dbSet [] (userKey "alice") ⟨"alice", hashModel.generate "pw"⟩)
    ∧ AddUser hashModel [] "alice" "pw"
      = (.ok ⟨"alice", hashModel.generate "pw"⟩,
         dbSet [] (userKey "alice") ⟨"alice", hashModel.generate "pw"⟩)
    ∧ hashModel.generate "pw" ≠ "pw" :=
  ⟨(add_user_spec hashModel
      (dbSet [] (userKey "alice") ⟨"alice", hashModel.generate "pw"⟩) "alice" "pw").1
      ⟨"alice", hashModel.generate "pw"⟩ rfl,
   ((add_user_spec hashModel [] "alice" "pw").2 rfl).1,
   ((add_user_spec hashModel [] "alice" "pw").2 rfl).2.1⟩

/-- Claim C9 (code-bug evidence): the snapshot's `ChangePassword`
unconditionally fails with the ad-hoc error `"stub"` and leaves the store
untouched — even for an existing user — so it never re-hashes or persists a
new password, contradicting its documented contract. -/
theorem change_password_always_stub (db : DB) (user pass : String) :
    ChangePassword db user pass = (.error (.other "stub"), db)
    ∧ ChangePassword (dbSet db (userKey user) ⟨user, pass⟩) user pass
      = (.error (.other "stub"), dbSet db (userKey user) ⟨user, pass⟩) :=
  ⟨rfl, rfl⟩

end Goftpd
